import Mathlib

/-!
Shallow embedding of the Thermal-Touch heat-simulation core
(src/HeatBackground.tsx and codepen/pen-js.js, with the palette/LUT
builder from colorPalettes.ts).  Heat buffers are modelled as functions
from grid coordinates to rationals; the float arithmetic of the source is
modelled exactly over ℚ (and over ℝ for the brush-kernel builder, whose
weights involve a square root).
-/

namespace ThermalTouch

/-- Heat or glow buffer of dimensions W × H; cell (x, y) corresponds to
flat index y * W + x in the source Float32Array. -/
abbrev Grid (W H : ℕ) : Type := Fin W → Fin H → ℚ

/-- Freshly allocated buffer (Float32Array is zero-initialised). -/
def zeroGrid (W H : ℕ) : Grid W H := fun _ _ => 0

/-- Buffer that is zero everywhere except cell (x0, y0), which holds h. -/
def hotGrid (W H : ℕ) (x0 : Fin W) (y0 : Fin H) (h : ℚ) : Grid W H :=
  fun x y => if x = x0 ∧ y = y0 then h else 0

/-- DIFFUSION_FACTOR constant of the source. -/
def DIFFUSION_FACTOR : ℚ := 1/2

/-- Left neighbour with edge clamping: x > 0 ? src[idx-1] : c. -/
def nbrL {W H : ℕ} (g : Grid W H) (x : Fin W) (y : Fin H) : ℚ :=
  if h : 0 < x.val then g ⟨x.val - 1, Nat.lt_of_le_of_lt (Nat.sub_le _ _) x.isLt⟩ y else g x y

/-- Right neighbour with edge clamping: x < gridW - 1 ? src[idx+1] : c. -/
def nbrR {W H : ℕ} (g : Grid W H) (x : Fin W) (y : Fin H) : ℚ :=
  if h : x.val + 1 < W then g ⟨x.val + 1, h⟩ y else g x y

/-- Up neighbour with edge clamping: y > 0 ? src[idx-gridW] : c. -/
def nbrU {W H : ℕ} (g : Grid W H) (x : Fin W) (y : Fin H) : ℚ :=
  if h : 0 < y.val then g x ⟨y.val - 1, Nat.lt_of_le_of_lt (Nat.sub_le _ _) y.isLt⟩ else g x y

/-- Down neighbour with edge clamping: y < gridH - 1 ? src[idx+gridW] : c. -/
def nbrD {W H : ℕ} (g : Grid W H) (x : Fin W) (y : Fin H) : ℚ :=
  if h : y.val + 1 < H then g x ⟨y.val + 1, h⟩ else g x y

/-- One cell of a diffusion pass:
dst[idx] = c + ((l + r + u + d) * 0.25 - c) * DIFFUSION_FACTOR. -/
def diffuseCell {W H : ℕ} (g : Grid W H) (x : Fin W) (y : Fin H) : ℚ :=
  let c := g x y
  c + ((nbrL g x y + nbrR g x y + nbrU g x y + nbrD g x y) * (1/4) - c) * DIFFUSION_FACTOR

/-- One full diffusion pass over the buffer (the source writes into the
scratch buffer and swaps, which amounts to a simultaneous update). -/
def diffuseStep {W H : ℕ} (g : Grid W H) : Grid W H := fun x y => diffuseCell g x y

/-- The iterated diffusion passes of one frame (after an odd number of
passes the source copies the scratch buffer back into the heat buffer,
so the net effect is plain iteration). -/
def diffuseN {W H : ℕ} : ℕ → Grid W H → Grid W H
  | 0, g => g
  | n + 1, g => diffuseN n (diffuseStep g)

/-- Per-frame decay of a single cell: heat[i] *= decay. -/
def decayCell (d : ℚ) (h : ℚ) : ℚ := h * d

/-- Per-frame decay pass over a buffer. -/
def decayStep {W H : ℕ} (d : ℚ) (g : Grid W H) : Grid W H := fun x y => decayCell d (g x y)

/-- Repeated application of the per-frame decay operation to one value. -/
def decayIter (d : ℚ) (h : ℚ) : ℕ → ℚ
  | 0 => h
  | n + 1 => decayCell d (decayIter d h n)

/-- One brush-kernel entry (dx, dy, weight); the weight type is ℚ in the
simulation model and ℝ for the kernel builder. -/
structure KEntry (α : Type) where
  dx : ℤ
  dy : ℤ
  w : α

/-- Grid cells sampled by the sampling loop: kernel entries whose weight
is not < 1 (the solid core) whose target gx+dx, gy+dy is in bounds. -/
def coreCells {W H : ℕ} (kernel : List (KEntry ℚ)) (gx gy : ℤ) : List (Fin W × Fin H) :=
  kernel.filterMap fun e =>
    if e.w < 1 then none
    else
      if h : 0 ≤ gx + e.dx ∧ gx + e.dx < (W : ℤ) ∧ 0 ≤ gy + e.dy ∧ gy + e.dy < (H : ℤ) then
        some (⟨(gx + e.dx).toNat, by omega⟩, ⟨(gy + e.dy).toNat, by omega⟩)
      else none

/-- Paint intensity of one frame: average heat under the solid core plus
the accumulation term, clamped to 1 for non-cycling palettes. -/
def samplePaint {W H : ℕ} (cyc : Bool) (kernel : List (KEntry ℚ)) (gx gy : ℤ) (accum : ℚ)
    (g : Grid W H) : ℚ :=
  let cells := coreCells (W := W) (H := H) kernel gx gy
  let sum := (cells.map fun c => g c.1 c.2).sum
  let raw := (if cells.length = 0 then 0 else sum / cells.length) + accum
  if cyc then raw else min 1 raw

/-- Max-blend of one kernel entry into the buffer:
if (val > heat[idx]) heat[idx] = val, skipping out-of-bounds targets. -/
def paintEntry {W H : ℕ} (p : ℚ) (gx gy : ℤ) (e : KEntry ℚ) (g : Grid W H) : Grid W H :=
  fun x y =>
    if (x.val : ℤ) = gx + e.dx ∧ (y.val : ℤ) = gy + e.dy then
      if p * e.w > g x y then p * e.w else g x y
    else g x y

/-- The paint loop over all kernel entries. -/
def paintStep {W H : ℕ} (p : ℚ) (gx gy : ℤ) (kernel : List (KEntry ℚ)) (g : Grid W H) :
    Grid W H :=
  kernel.foldl (fun acc e => paintEntry p gx gy e acc) g

/-- Render visibility threshold: 0.015 for cycling palettes, 0.002 otherwise. -/
def renderThreshold (cyc : Bool) : ℚ := if cyc then 15/1000 else 2/1000

/-- Effect of the render pass on the heat buffer: cells whose effective
intensity is at or below the threshold have negative heat clamped to 0. -/
def renderClamp {W H : ℕ} (cyc : Bool) (useGlow : Bool) (glow : Grid W H) (g : Grid W H) :
    Grid W H :=
  fun x y =>
    let v := g x y * (if useGlow then min 1 (glow x y) else 1)
    if renderThreshold cyc < v then g x y
    else if g x y < 0 then 0 else g x y

/-- Per-frame inputs read by tick: pointer state, accumulation term
(accumRate * dt), decay factor of the frame, number of diffusion passes,
brush kernel, and glow-mask state consulted by the render pass. -/
structure FrameInput (W H : ℕ) where
  active : Bool
  gx : ℤ
  gy : ℤ
  accum : ℚ
  decay : ℚ
  iters : ℕ
  kernel : List (KEntry ℚ)
  useGlow : Bool
  glow : Grid W H

/-- One frame of the animation loop, in source order: sample the paint
intensity from the pre-frame buffer, diffuse, decay, paint, render. -/
def tick {W H : ℕ} (cyc : Bool) (inp : FrameInput W H) (g : Grid W H) : Grid W H :=
  renderClamp cyc inp.useGlow inp.glow
    (if inp.active then
      paintStep (samplePaint cyc inp.kernel inp.gx inp.gy inp.accum g) inp.gx inp.gy inp.kernel
        (decayStep inp.decay (diffuseN inp.iters g))
    else decayStep inp.decay (diffuseN inp.iters g))

/-- The heat buffer after each step of one frame (sample leaves the buffer
unchanged, so the pre-frame buffer doubles as the post-sample state). -/
def tickGrids {W H : ℕ} (cyc : Bool) (inp : FrameInput W H) (g : Grid W H) : List (Grid W H) :=
  [diffuseN inp.iters g,
   decayStep inp.decay (diffuseN inp.iters g),
   (if inp.active then
      paintStep (samplePaint cyc inp.kernel inp.gx inp.gy inp.accum g) inp.gx inp.gy inp.kernel
        (decayStep inp.decay (diffuseN inp.iters g))
    else decayStep inp.decay (diffuseN inp.iters g)),
   tick cyc inp g]

/-- All intermediate heat buffers produced by a sequence of frames. -/
def runTrace {W H : ℕ} (cyc : Bool) : List (FrameInput W H) → Grid W H → List (Grid W H)
  | [], g => [g]
  | inp :: rest, g => g :: (tickGrids cyc inp g ++ runTrace cyc rest (tick cyc inp g))

/-- Composition order the spec contrasts the code against: the same frame
with the decay multiplication applied after the paint step instead of
before it. -/
def tickPaintBeforeDecay {W H : ℕ} (cyc : Bool) (inp : FrameInput W H) (g : Grid W H) :
    Grid W H :=
  renderClamp cyc inp.useGlow inp.glow
    (decayStep inp.decay
      (if inp.active then
        paintStep (samplePaint cyc inp.kernel inp.gx inp.gy inp.accum g) inp.gx inp.gy inp.kernel
          (diffuseN inp.iters g)
      else diffuseN inp.iters g))

/-- Inputs the running program can actually produce: a non-negative
accumulation term, a decay factor in [0, 1] and kernel weights ≤ 1. -/
def WFInput {W H : ℕ} (inp : FrameInput W H) : Prop :=
  0 ≤ inp.accum ∧ 0 ≤ inp.decay ∧ inp.decay ≤ 1 ∧ ∀ e ∈ inp.kernel, e.w ≤ 1

/-- Every cell of the buffer is non-negative. -/
def NonnegGrid {W H : ℕ} (g : Grid W H) : Prop := ∀ x y, 0 ≤ g x y

/-- Every cell of the buffer is at most 1. -/
def BddOneGrid {W H : ℕ} (g : Grid W H) : Prop := ∀ x y, g x y ≤ 1

/-- softness = max(0, (bleedRadius - 30) / 30);
innerMinWeight = 1 - softness * 0.6. -/
noncomputable def innerMinWeight (bleedRadius : ℝ) : ℝ :=
  1 - max 0 ((bleedRadius - 30) / 30) * (3/5)

/-- Euclidean distance of a kernel offset from the brush centre. -/
noncomputable def kernelDist (dx dy : ℤ) : ℝ :=
  Real.sqrt ((dx : ℝ) * dx + (dy : ℝ) * dy)

/-- Brush-kernel weight as a function of the distance d: the quadratic
inner-disc ease for d ≤ brushGridR, the cubic bleed ease-out beyond it,
with the division-by-zero guards of the source. -/
noncomputable def weightAt (brushGridR bleedGridR im d : ℝ) : ℝ :=
  if d ≤ brushGridR then
    1 - (1 - im) * (if 0 < brushGridR then d / brushGridR else 0) *
      (if 0 < brushGridR then d / brushGridR else 0)
  else
    im * ((1 - (if 0 < bleedGridR then (d - brushGridR) / bleedGridR else 1)) *
      (1 - (if 0 < bleedGridR then (d - brushGridR) / bleedGridR else 1)) *
      (1 - (if 0 < bleedGridR then (d - brushGridR) / bleedGridR else 1)))

/-- The weight the kernel builder assigns to offset (dx, dy). -/
noncomputable def kernelWeight (brushRadius bleedRadius scale : ℝ) (dx dy : ℤ) : ℝ :=
  weightAt (brushRadius / scale) (bleedRadius / scale) (innerMinWeight bleedRadius)
    (kernelDist dx dy)

/-- The double loop for dy in [-ceil, ceil], dx in [-ceil, ceil]. -/
def offsetRange (c : ℤ) : List (ℤ × ℤ) :=
  (List.range (2 * c + 1).toNat).flatMap fun i =>
    (List.range (2 * c + 1).toNat).map fun j => (Int.ofNat j - c, Int.ofNat i - c)

/-- buildBrushKernel / buildKernel: every offset within the ceiling box
whose distance is at most brushGridR + bleedGridR, with its weight. -/
noncomputable def buildBrushKernel (brushRadius bleedRadius scale : ℝ) : List (KEntry ℝ) :=
  (offsetRange ⌈brushRadius / scale + bleedRadius / scale⌉).filterMap fun o =>
    if kernelDist o.1 o.2 ≤ brushRadius / scale + bleedRadius / scale then
      some ⟨o.1, o.2, kernelWeight brushRadius bleedRadius scale o.1 o.2⟩
    else none

/-- One colour stop of a palette: a position in [0, 1] plus its RGB. -/
structure ColorStop where
  pos : ℚ
  r : ℤ
  g : ℤ
  b : ℤ

/-- RGB triple of one LUT entry (the packing into an ABGR word keeps the
three channels unchanged, so claims about entry colours live here). -/
structure RGB where
  r : ℤ
  g : ℤ
  b : ℤ

/-- Default stop used to model the out-of-contract read stops[0] on an
empty list (never reached for well-formed palettes). -/
def dfltStop : ColorStop := ⟨0, 0, 0, 0⟩

def dfltRGB : RGB := ⟨0, 0, 0⟩

/-- stops[0]. -/
def headStop (stops : List ColorStop) : ColorStop := stops.headD dfltStop

/-- stops[stops.length - 1]. -/
def lastStop : List ColorStop → ColorStop
  | [] => dfltStop
  | [a] => a
  | _ :: b :: rest => lastStop (b :: rest)

/-- JavaScript Math.round: round half toward positive infinity. -/
def jsRound (q : ℚ) : ℤ := ⌊q + 1/2⌋

/-- The bracketing-stop scan: the first adjacent pair (lo, hi) with
lo.pos ≤ t ≤ hi.pos, none when no pair brackets t. -/
def findPair : List ColorStop → ℚ → Option (ColorStop × ColorStop)
  | a :: b :: rest, t => if a.pos ≤ t ∧ t ≤ b.pos then some (a, b) else findPair (b :: rest) t
  | _, _ => none

/-- frac = range > 0 ? (t - lo.pos) / range : 0. -/
def interpFrac (lo hi : ColorStop) (t : ℚ) : ℚ :=
  if 0 < hi.pos - lo.pos then (t - lo.pos) / (hi.pos - lo.pos) else 0

/-- Per-channel linear interpolation with JavaScript rounding. -/
def interpStops (lo hi : ColorStop) (t : ℚ) : RGB :=
  ⟨jsRound ((lo.r : ℚ) + ((hi.r : ℚ) - lo.r) * interpFrac lo hi t),
   jsRound ((lo.g : ℚ) + ((hi.g : ℚ) - lo.g) * interpFrac lo hi t),
   jsRound ((lo.b : ℚ) + ((hi.b : ℚ) - lo.b) * interpFrac lo hi t)⟩

/-- Stop-list interpolation at normalised intensity t: scan for the
bracketing pair, defaulting to (stops[0], stops[last]). -/
def colorAt (stops : List ColorStop) (t : ℚ) : RGB :=
  match findPair stops t with
  | some (lo, hi) => interpStops lo hi t
  | none => interpStops (headStop stops) (lastStop stops) t

/-- FADE_IN = cycling ? 40 : 0. -/
def fadeInCount (cycling : Bool) : ℕ := if cycling then 40 else 0

/-- One entry of the 256-entry LUT: a background fade for i < FADE_IN
(cycling only), otherwise stop interpolation at t = (i - FADE_IN) /
(255 - FADE_IN) for cycling and t = i / 255 for non-cycling. -/
def lutEntry (stops : List ColorStop) (cycling : Bool) (bg : RGB) (i : ℕ) : RGB :=
  if i < fadeInCount cycling then
    ⟨jsRound ((bg.r : ℚ) + (((headStop stops).r : ℚ) - bg.r) * (i / fadeInCount cycling)),
     jsRound ((bg.g : ℚ) + (((headStop stops).g : ℚ) - bg.g) * (i / fadeInCount cycling)),
     jsRound ((bg.b : ℚ) + (((headStop stops).b : ℚ) - bg.b) * (i / fadeInCount cycling))⟩
  else
    colorAt stops
      (if cycling then ((i : ℚ) - fadeInCount cycling) / (255 - fadeInCount cycling)
       else (i : ℚ) / 255)

/-- buildColorLUT / buildLUT: the full 256-entry table. -/
def buildColorLUT (stops : List ColorStop) (cycling : Bool) (bg : RGB) : List RGB :=
  (List.range 256).map (lutEntry stops cycling bg)

/-- Well-formed stop list: non-empty, strictly increasing positions,
first position 0, last position 1. -/
def WFStops (stops : List ColorStop) : Prop :=
  stops ≠ [] ∧ stops.Chain' (fun s t => s.pos < t.pos) ∧
    (headStop stops).pos = 0 ∧ (lastStop stops).pos = 1

/-- Truncation toward zero, as JavaScript ToInt32 applies to its operand
before wrapping. -/
def jsTrunc (q : ℚ) : ℤ := if 0 ≤ q then ⌊q⌋ else -⌊-q⌋

/-- JavaScript ToInt32, the conversion applied by the bitwise-or in
(v * 255) | 0: truncate, then wrap into [-2^31, 2^31). -/
def toInt32 (q : ℚ) : ℤ := (jsTrunc q + 2 ^ 31) % 2 ^ 32 - 2 ^ 31

/-- LUT index computed by the render step for an effective intensity v:
min(255, (v*255)|0) for non-cycling palettes; for cycling palettes the
raw index is used inside the fade-in band and otherwise slowed by a
right shift and wrapped into the colour range by a modulo. -/
def renderIndex (cyc : Bool) (v : ℚ) : ℤ :=
  if cyc then
    let raw := toInt32 (v * 255)
    if raw ≤ 40 then raw else 40 + (raw - 40) / 4 % 216
  else
    min 255 (toInt32 (v * 255))

/-- Resize copy: the overlapping rectangle keeps its values, everything
else starts at zero in the freshly allocated buffer. -/
def resizeGrid (oldW oldH newW newH : ℕ) (g : Grid oldW oldH) : Grid newW newH :=
  fun x y =>
    if h : x.val < oldW ∧ y.val < oldH then g ⟨x.val, h.1⟩ ⟨y.val, h.2⟩ else 0

/-- The resize handler copies both the heat buffer and the glow mask. -/
def onResize (oldW oldH newW newH : ℕ) (heat glow : Grid oldW oldH) :
    Grid newW newH × Grid newW newH :=
  (resizeGrid oldW oldH newW newH heat, resizeGrid oldW oldH newW newH glow)

/-! Helper lemmas. -/

lemma hotGrid_eq_zero {W H : ℕ} (x0 : Fin W) (y0 : Fin H) (h : ℚ) {x : Fin W} {y : Fin H}
    (hne : x.val ≠ x0.val ∨ y.val ≠ y0.val) : hotGrid W H x0 y0 h x y = 0 := by
  unfold hotGrid
  rw [if_neg]
  rintro ⟨rfl, rfl⟩
  rcases hne with hne | hne <;> exact hne rfl

lemma hotGrid_eq_self {W H : ℕ} (x0 : Fin W) (y0 : Fin H) (h : ℚ) {x : Fin W} {y : Fin H}
    (hx : x.val = x0.val) (hy : y.val = y0.val) : hotGrid W H x0 y0 h x y = h := by
  unfold hotGrid
  rw [if_pos ⟨Fin.ext hx, Fin.ext hy⟩]

lemma diffuseStep_formula {W H : ℕ} (g : Grid W H) (x : Fin W) (y : Fin H) :
    diffuseStep g x y =
      g x y * (1/2) + (nbrL g x y + nbrR g x y + nbrU g x y + nbrD g x y) * (1/8) := by
  unfold diffuseStep diffuseCell DIFFUSION_FACTOR
  ring

lemma decayIter_eq (d h : ℚ) : ∀ n, decayIter d h n = h * d ^ n := by
  intro n
  induction n with
  | zero => simp [decayIter]
  | succ n ih => rw [decayIter, decayCell, ih, pow_succ]; ring

lemma paintEntry_le {W H : ℕ} (p : ℚ) (gx gy : ℤ) (e : KEntry ℚ) (g : Grid W H)
    (x : Fin W) (y : Fin H) : g x y ≤ paintEntry p gx gy e g x y := by
  unfold paintEntry
  split
  · split
    · next hgt => exact le_of_lt hgt
    · exact le_refl _
  · exact le_refl _

lemma paintStep_le {W H : ℕ} (p : ℚ) (gx gy : ℤ) :
    ∀ (kernel : List (KEntry ℚ)) (g : Grid W H) (x : Fin W) (y : Fin H),
      g x y ≤ paintStep p gx gy kernel g x y := by
  intro kernel
  induction kernel with
  | nil => intro g x y; exact le_refl _
  | cons e rest ih =>
      intro g x y
      calc g x y ≤ paintEntry p gx gy e g x y := paintEntry_le p gx gy e g x y
        _ ≤ paintStep p gx gy rest (paintEntry p gx gy e g) x y := ih _ x y
        _ = paintStep p gx gy (e :: rest) g x y := rfl

lemma nonneg_diffuseStep {W H : ℕ} {g : Grid W H} (hg : NonnegGrid g) :
    NonnegGrid (diffuseStep g) := by
  intro x y
  rw [diffuseStep_formula]
  have hL : 0 ≤ nbrL g x y := by unfold nbrL; split <;> apply hg
  have hR : 0 ≤ nbrR g x y := by unfold nbrR; split <;> apply hg
  have hU : 0 ≤ nbrU g x y := by unfold nbrU; split <;> apply hg
  have hD : 0 ≤ nbrD g x y := by unfold nbrD; split <;> apply hg
  have hc := hg x y
  linarith

lemma bddOne_diffuseStep {W H : ℕ} {g : Grid W H} (hg : BddOneGrid g) :
    BddOneGrid (diffuseStep g) := by
  intro x y
  rw [diffuseStep_formula]
  have hL : nbrL g x y ≤ 1 := by unfold nbrL; split <;> apply hg
  have hR : nbrR g x y ≤ 1 := by unfold nbrR; split <;> apply hg
  have hU : nbrU g x y ≤ 1 := by unfold nbrU; split <;> apply hg
  have hD : nbrD g x y ≤ 1 := by unfold nbrD; split <;> apply hg
  have hc := hg x y
  linarith

lemma nonneg_diffuseN {W H : ℕ} : ∀ (n : ℕ) {g : Grid W H}, NonnegGrid g →
    NonnegGrid (diffuseN n g)
  | 0, _, hg => hg
  | n + 1, _, hg => nonneg_diffuseN n (nonneg_diffuseStep hg)

lemma bddOne_diffuseN {W H : ℕ} : ∀ (n : ℕ) {g : Grid W H}, BddOneGrid g →
    BddOneGrid (diffuseN n g)
  | 0, _, hg => hg
  | n + 1, _, hg => bddOne_diffuseN n (bddOne_diffuseStep hg)

lemma nonneg_decayStep {W H : ℕ} {d : ℚ} {g : Grid W H} (hd : 0 ≤ d) (hg : NonnegGrid g) :
    NonnegGrid (decayStep d g) :=
  fun x y => mul_nonneg (hg x y) hd

lemma bddOne_decayStep {W H : ℕ} {d : ℚ} {g : Grid W H} (hd0 : 0 ≤ d) (hd1 : d ≤ 1)
    (hg : NonnegGrid g) (hb : BddOneGrid g) : BddOneGrid (decayStep d g) := by
  intro x y
  have h1 := hg x y
  have h2 := hb x y
  unfold decayStep decayCell
  nlinarith

lemma nonneg_paintStep {W H : ℕ} {p : ℚ} {gx gy : ℤ} {kernel : List (KEntry ℚ)}
    {g : Grid W H} (hg : NonnegGrid g) : NonnegGrid (paintStep p gx gy kernel g) :=
  fun x y => le_trans (hg x y) (paintStep_le p gx gy kernel g x y)

lemma bddOne_paintEntry {W H : ℕ} {p : ℚ} {gx gy : ℤ} {e : KEntry ℚ} {g : Grid W H}
    (hp0 : 0 ≤ p) (hp1 : p ≤ 1) (hw : e.w ≤ 1) (hb : BddOneGrid g) :
    BddOneGrid (paintEntry p gx gy e g) := by
  intro x y
  unfold paintEntry
  split
  · split
    · nlinarith [mul_nonneg hp0 (sub_nonneg.mpr hw)]
    · exact hb x y
  · exact hb x y

lemma bddOne_paintStep {W H : ℕ} {p : ℚ} {gx gy : ℤ} (hp0 : 0 ≤ p) (hp1 : p ≤ 1) :
    ∀ {kernel : List (KEntry ℚ)}, (∀ e ∈ kernel, e.w ≤ 1) → ∀ {g : Grid W H},
      BddOneGrid g → BddOneGrid (paintStep p gx gy kernel g) := by
  intro kernel
  induction kernel with
  | nil => intro _ g hb; exact hb
  | cons e rest ih =>
      intro hk g hb
      have h1 : BddOneGrid (paintEntry p gx gy e g) :=
        bddOne_paintEntry hp0 hp1 (hk e (by simp)) hb
      have h2 := ih (fun e2 he2 => hk e2 (by simp [he2])) h1
      exact h2

lemma samplePaint_nonneg {W H : ℕ} {cyc : Bool} {kernel : List (KEntry ℚ)} {gx gy : ℤ}
    {accum : ℚ} {g : Grid W H} (haccum : 0 ≤ accum) (hg : NonnegGrid g) :
    0 ≤ samplePaint cyc kernel gx gy accum g := by
  unfold samplePaint
  have hsum : 0 ≤ ((coreCells (W := W) (H := H) kernel gx gy).map fun c => g c.1 c.2).sum := by
    apply List.sum_nonneg
    intro a ha
    obtain ⟨c, _, rfl⟩ := List.mem_map.mp ha
    exact hg c.1 c.2
  have hraw : 0 ≤ (if (coreCells (W := W) (H := H) kernel gx gy).length = 0 then 0
      else ((coreCells (W := W) (H := H) kernel gx gy).map fun c => g c.1 c.2).sum /
        (coreCells (W := W) (H := H) kernel gx gy).length) + accum := by
    have : 0 ≤ (if (coreCells (W := W) (H := H) kernel gx gy).length = 0 then (0:ℚ)
        else ((coreCells (W := W) (H := H) kernel gx gy).map fun c => g c.1 c.2).sum /
          (coreCells (W := W) (H := H) kernel gx gy).length) := by
      split
      · exact le_refl 0
      · exact div_nonneg hsum (by positivity)
    linarith
  split
  · exact hraw
  · exact le_min (by norm_num) hraw

lemma samplePaint_le_one {W H : ℕ} {kernel : List (KEntry ℚ)} {gx gy : ℤ} {accum : ℚ}
    {g : Grid W H} : samplePaint false kernel gx gy accum g ≤ 1 := by
  unfold samplePaint
  exact min_le_left 1 _

lemma nonneg_renderClamp {W H : ℕ} {cyc useGlow : Bool} {glow g : Grid W H}
    (hg : NonnegGrid g) : NonnegGrid (renderClamp cyc useGlow glow g) := by
  intro x y
  unfold renderClamp
  dsimp only
  by_cases h1 : renderThreshold cyc < g x y * (if useGlow = true then 1 ⊓ glow x y else 1)
  · rw [if_pos h1]; exact hg x y
  · rw [if_neg h1]
    by_cases h2 : g x y < 0
    · rw [if_pos h2]
    · rw [if_neg h2]; exact hg x y

lemma bddOne_renderClamp {W H : ℕ} {cyc useGlow : Bool} {glow g : Grid W H}
    (hb : BddOneGrid g) : BddOneGrid (renderClamp cyc useGlow glow g) := by
  intro x y
  unfold renderClamp
  dsimp only
  by_cases h1 : renderThreshold cyc < g x y * (if useGlow = true then 1 ⊓ glow x y else 1)
  · rw [if_pos h1]; exact hb x y
  · rw [if_neg h1]
    by_cases h2 : g x y < 0
    · rw [if_pos h2]; norm_num
    · rw [if_neg h2]; exact hb x y

lemma tick_grid_invariant {W H : ℕ} {cyc : Bool} {inp : FrameInput W H} {g : Grid W H}
    (hWF : WFInput inp) (hg : NonnegGrid g) (hb : cyc = false → BddOneGrid g) :
    ∀ g2 ∈ tickGrids cyc inp g, NonnegGrid g2 ∧ (cyc = false → BddOneGrid g2) := by
  obtain ⟨haccum, hd0, hd1, hker⟩ := hWF
  have hg1 : NonnegGrid (diffuseN inp.iters g) := nonneg_diffuseN inp.iters hg
  have hb1 : cyc = false → BddOneGrid (diffuseN inp.iters g) :=
    fun hc => bddOne_diffuseN inp.iters (hb hc)
  have hg2 : NonnegGrid (decayStep inp.decay (diffuseN inp.iters g)) :=
    nonneg_decayStep hd0 hg1
  have hb2 : cyc = false → BddOneGrid (decayStep inp.decay (diffuseN inp.iters g)) :=
    fun hc => bddOne_decayStep hd0 hd1 hg1 (hb1 hc)
  have hg3 : NonnegGrid (if inp.active then
      paintStep (samplePaint cyc inp.kernel inp.gx inp.gy inp.accum g) inp.gx inp.gy inp.kernel
        (decayStep inp.decay (diffuseN inp.iters g))
    else decayStep inp.decay (diffuseN inp.iters g)) := by
    split
    · exact nonneg_paintStep hg2
    · exact hg2
  have hb3 : cyc = false → BddOneGrid (if inp.active then
      paintStep (samplePaint cyc inp.kernel inp.gx inp.gy inp.accum g) inp.gx inp.gy inp.kernel
        (decayStep inp.decay (diffuseN inp.iters g))
    else decayStep inp.decay (diffuseN inp.iters g)) := by
    intro hc
    subst hc
    split
    · exact bddOne_paintStep (samplePaint_nonneg haccum hg) samplePaint_le_one hker (hb2 rfl)
    · exact hb2 rfl
  have hg4 : NonnegGrid (tick cyc inp g) := by
    unfold tick
    exact nonneg_renderClamp hg3
  have hb4 : cyc = false → BddOneGrid (tick cyc inp g) := by
    intro hc
    unfold tick
    exact bddOne_renderClamp (hb3 hc)
  intro g2 hg2mem
  simp only [tickGrids, List.mem_cons, List.mem_singleton, List.not_mem_nil, or_false] at hg2mem
  rcases hg2mem with rfl | rfl | rfl | rfl
  · exact ⟨hg1, hb1⟩
  · exact ⟨hg2, hb2⟩
  · exact ⟨hg3, hb3⟩
  · exact ⟨hg4, hb4⟩

lemma runTrace_invariant {W H : ℕ} {cyc : Bool} :
    ∀ (inps : List (FrameInput W H)) (g0 : Grid W H), (∀ inp ∈ inps, WFInput inp) →
      NonnegGrid g0 → (cyc = false → BddOneGrid g0) →
      ∀ g ∈ runTrace cyc inps g0, NonnegGrid g ∧ (cyc = false → BddOneGrid g) := by
  intro inps
  induction inps with
  | nil =>
      intro g0 _ hg hb g hmem
      simp only [runTrace, List.mem_singleton] at hmem
      subst hmem
      exact ⟨hg, hb⟩
  | cons inp rest ih =>
      intro g0 hWF hg hb g hmem
      simp only [runTrace, List.mem_cons, List.mem_append] at hmem
      rcases hmem with rfl | hmem | hmem
      · exact ⟨hg, hb⟩
      · exact tick_grid_invariant (hWF inp (by simp)) hg hb g hmem
      · have htick := tick_grid_invariant (hWF inp (by simp)) hg hb (tick cyc inp g0)
          (by simp [tickGrids])
        exact ih (tick cyc inp g0) (fun i hi => hWF i (by simp [hi])) htick.1 htick.2 g hmem

/-! Claim theorems. -/

/-- C1: over any sequence of frames starting from the all-zero heat
buffer, every cell of the heat buffer is non-negative after every step
(diffuse, decay, paint, render; sampling leaves the buffer unchanged),
and for a non-cycling palette (paint intensity clamped to at most 1)
every cell additionally stays at most 1 after every step. -/
theorem heat_buffer_invariant (W H : ℕ) (cyc : Bool) (inps : List (FrameInput W H))
    (hWF : ∀ inp ∈ inps, WFInput inp) :
    (∀ g ∈ runTrace cyc inps (zeroGrid W H), NonnegGrid g) ∧
    (cyc = false → ∀ g ∈ runTrace cyc inps (zeroGrid W H), BddOneGrid g) := by
  have h0 : NonnegGrid (zeroGrid W H) := fun _ _ => le_refl 0
  have h1 : cyc = false → BddOneGrid (zeroGrid W H) := fun _ _ _ => by norm_num [zeroGrid]
  have h := runTrace_invariant inps (zeroGrid W H) hWF h0 h1
  exact ⟨fun g hg => (h g hg).1, fun hc g hg => (h g hg).2 hc⟩

/-- C1 witness: one active frame on a 1 × 1 grid with the centre kernel
entry, a decay factor of 1/2 and one diffusion pass. -/
theorem heat_buffer_invariant_witness :
    (∀ inp ∈ [(⟨true, 0, 0, 1/2, 1/2, 1, [⟨0, 0, 1⟩], false, zeroGrid 1 1⟩ : FrameInput 1 1)],
        WFInput inp) ∧
    ((∀ g ∈ runTrace false
          [(⟨true, 0, 0, 1/2, 1/2, 1, [⟨0, 0, 1⟩], false, zeroGrid 1 1⟩ : FrameInput 1 1)]
          (zeroGrid 1 1), NonnegGrid g) ∧
      (false = false → ∀ g ∈ runTrace false
          [(⟨true, 0, 0, 1/2, 1/2, 1, [⟨0, 0, 1⟩], false, zeroGrid 1 1⟩ : FrameInput 1 1)]
          (zeroGrid 1 1), BddOneGrid g)) := by
  have hWF : ∀ inp ∈
      [(⟨true, 0, 0, 1/2, 1/2, 1, [⟨0, 0, 1⟩], false, zeroGrid 1 1⟩ : FrameInput 1 1)],
      WFInput inp := by
    intro inp hinp
    rw [List.mem_singleton] at hinp
    subst hinp
    refine ⟨by norm_num, by norm_num, by norm_num, ?_⟩
    intro e he
    rw [List.mem_singleton] at he
    subst he
    norm_num
  exact ⟨hWF, heat_buffer_invariant 1 1 false _ hWF⟩

/-- C5: one diffusion pass replaces every cell c by
c + ((l+r+u+d)*0.25 - c) * 0.5 with edge-clamped neighbours (stated in the
equivalent form c/2 + (l+r+u+d)/8); starting from a buffer that is zero
except for one interior cell holding h > 0, after one pass that cell holds
0.5*h (a strict decrease) and each orthogonal neighbour holds 0.125*h
(a strict increase from zero). -/
theorem diffusion_single_hot_cell (W H : ℕ) (x0 : Fin W) (y0 : Fin H) (h : ℚ)
    (hx0 : 0 < x0.val) (hx1 : x0.val + 1 < W) (hy0 : 0 < y0.val) (hy1 : y0.val + 1 < H)
    (hh : 0 < h) :
    (∀ (g : Grid W H) (x : Fin W) (y : Fin H),
        diffuseStep g x y =
          g x y * (1/2) + (nbrL g x y + nbrR g x y + nbrU g x y + nbrD g x y) * (1/8)) ∧
    diffuseStep (hotGrid W H x0 y0 h) x0 y0 = (1/2) * h ∧
    (1/2) * h < h ∧
    diffuseStep (hotGrid W H x0 y0 h)
      ⟨x0.val - 1, Nat.lt_of_le_of_lt (Nat.sub_le _ _) x0.isLt⟩ y0 = (1/8) * h ∧
    diffuseStep (hotGrid W H x0 y0 h) ⟨x0.val + 1, hx1⟩ y0 = (1/8) * h ∧
    diffuseStep (hotGrid W H x0 y0 h) x0
      ⟨y0.val - 1, Nat.lt_of_le_of_lt (Nat.sub_le _ _) y0.isLt⟩ = (1/8) * h ∧
    diffuseStep (hotGrid W H x0 y0 h) x0 ⟨y0.val + 1, hy1⟩ = (1/8) * h ∧
    0 < (1/8) * h := by
  set G := hotGrid W H x0 y0 h with hG
  have hzero : ∀ {x : Fin W} {y : Fin H}, (x.val ≠ x0.val ∨ y.val ≠ y0.val) → G x y = 0 :=
    fun hne => hotGrid_eq_zero x0 y0 h hne
  have hself : ∀ {x : Fin W} {y : Fin H}, x.val = x0.val → y.val = y0.val → G x y = h :=
    fun hx hy => hotGrid_eq_self x0 y0 h hx hy
  refine ⟨fun g x y => diffuseStep_formula g x y, ?_, by linarith, ?_, ?_, ?_, ?_, by linarith⟩
  · -- centre cell
    rw [diffuseStep_formula]
    have hL : nbrL G x0 y0 = 0 := by
      unfold nbrL; rw [dif_pos hx0]; exact hzero (Or.inl (by simp only [Fin.val_mk]; omega))
    have hR : nbrR G x0 y0 = 0 := by
      unfold nbrR; rw [dif_pos hx1]; exact hzero (Or.inl (by simp only [Fin.val_mk]; omega))
    have hU : nbrU G x0 y0 = 0 := by
      unfold nbrU; rw [dif_pos hy0]; exact hzero (Or.inr (by simp only [Fin.val_mk]; omega))
    have hD : nbrD G x0 y0 = 0 := by
      unfold nbrD; rw [dif_pos hy1]; exact hzero (Or.inr (by simp only [Fin.val_mk]; omega))
    have hc : G x0 y0 = h := hself rfl rfl
    rw [hL, hR, hU, hD, hc]; ring
  · -- left neighbour
    set xl : Fin W := ⟨x0.val - 1, Nat.lt_of_le_of_lt (Nat.sub_le _ _) x0.isLt⟩ with hxl
    rw [diffuseStep_formula]
    have hc : G xl y0 = 0 := hzero (Or.inl (by simp [hxl]; omega))
    have hL : nbrL G xl y0 = 0 := by
      unfold nbrL
      split
      · exact hzero (Or.inl (by simp [hxl]; omega))
      · exact hc
    have hR : nbrR G xl y0 = h := by
      unfold nbrR
      have hlt : xl.val + 1 < W := by simp [hxl]; omega
      rw [dif_pos hlt]
      exact hself (by simp [hxl]; omega) rfl
    have hU : nbrU G xl y0 = 0 := by
      unfold nbrU; rw [dif_pos hy0]; exact hzero (Or.inl (by simp [hxl]; omega))
    have hD : nbrD G xl y0 = 0 := by
      unfold nbrD; rw [dif_pos hy1]; exact hzero (Or.inl (by simp [hxl]; omega))
    rw [hL, hR, hU, hD, hc]; ring
  · -- right neighbour
    set xr : Fin W := ⟨x0.val + 1, hx1⟩ with hxr
    rw [diffuseStep_formula]
    have hc : G xr y0 = 0 := hzero (Or.inl (by simp [hxr]))
    have hL : nbrL G xr y0 = h := by
      unfold nbrL
      have hlt : 0 < xr.val := by simp [hxr]
      rw [dif_pos hlt]
      exact hself (by simp [hxr]) rfl
    have hR : nbrR G xr y0 = 0 := by
      unfold nbrR
      split
      · exact hzero (Or.inl (by simp [hxr]; omega))
      · exact hc
    have hU : nbrU G xr y0 = 0 := by
      unfold nbrU; rw [dif_pos hy0]; exact hzero (Or.inl (by simp [hxr]))
    have hD : nbrD G xr y0 = 0 := by
      unfold nbrD; rw [dif_pos hy1]; exact hzero (Or.inl (by simp [hxr]))
    rw [hL, hR, hU, hD, hc]; ring
  · -- up neighbour
    set yu : Fin H := ⟨y0.val - 1, Nat.lt_of_le_of_lt (Nat.sub_le _ _) y0.isLt⟩ with hyu
    rw [diffuseStep_formula]
    have hc : G x0 yu = 0 := hzero (Or.inr (by simp [hyu]; omega))
    have hL : nbrL G x0 yu = 0 := by
      unfold nbrL; rw [dif_pos hx0]; exact hzero (Or.inr (by simp [hyu]; omega))
    have hR : nbrR G x0 yu = 0 := by
      unfold nbrR; rw [dif_pos hx1]; exact hzero (Or.inr (by simp [hyu]; omega))
    have hU : nbrU G x0 yu = 0 := by
      unfold nbrU
      split
      · exact hzero (Or.inr (by simp [hyu]; omega))
      · exact hc
    have hD : nbrD G x0 yu = h := by
      unfold nbrD
      have hlt : yu.val + 1 < H := by simp [hyu]; omega
      rw [dif_pos hlt]
      exact hself rfl (by simp [hyu]; omega)
    rw [hL, hR, hU, hD, hc]; ring
  · -- down neighbour
    set yd : Fin H := ⟨y0.val + 1, hy1⟩ with hyd
    rw [diffuseStep_formula]
    have hc : G x0 yd = 0 := hzero (Or.inr (by simp [hyd]))
    have hL : nbrL G x0 yd = 0 := by
      unfold nbrL; rw [dif_pos hx0]; exact hzero (Or.inr (by simp [hyd]))
    have hR : nbrR G x0 yd = 0 := by
      unfold nbrR; rw [dif_pos hx1]; exact hzero (Or.inr (by simp [hyd]))
    have hU : nbrU G x0 yd = h := by
      unfold nbrU
      have hlt : 0 < yd.val := by simp [hyd]
      rw [dif_pos hlt]
      exact hself rfl (by simp [hyd])
    have hD : nbrD G x0 yd = 0 := by
      unfold nbrD
      split
      · exact hzero (Or.inr (by simp [hyd]; omega))
      · exact hc
    rw [hL, hR, hU, hD, hc]; ring

/-- C5 witness on a 3 × 3 grid with the hot cell in the middle. -/
theorem diffusion_single_hot_cell_witness :
    0 < (1 : Fin 3).val ∧ (1 : Fin 3).val + 1 < 3 ∧ 0 < (1 : ℚ) ∧
    ((∀ (g : Grid 3 3) (x : Fin 3) (y : Fin 3),
        diffuseStep g x y =
          g x y * (1/2) + (nbrL g x y + nbrR g x y + nbrU g x y + nbrD g x y) * (1/8)) ∧
      diffuseStep (hotGrid 3 3 1 1 1) 1 1 = (1/2) * 1 ∧
      (1/2) * (1:ℚ) < 1 ∧
      diffuseStep (hotGrid 3 3 1 1 1)
        ⟨(1 : Fin 3).val - 1, Nat.lt_of_le_of_lt (Nat.sub_le _ _) (1 : Fin 3).isLt⟩ 1 =
          (1/8) * 1 ∧
      diffuseStep (hotGrid 3 3 1 1 1) ⟨(1 : Fin 3).val + 1, by norm_num⟩ 1 = (1/8) * 1 ∧
      diffuseStep (hotGrid 3 3 1 1 1) 1
        ⟨(1 : Fin 3).val - 1, Nat.lt_of_le_of_lt (Nat.sub_le _ _) (1 : Fin 3).isLt⟩ =
          (1/8) * 1 ∧
      diffuseStep (hotGrid 3 3 1 1 1) 1 ⟨(1 : Fin 3).val + 1, by norm_num⟩ = (1/8) * 1 ∧
      0 < (1/8 : ℚ) * 1) :=
  ⟨by norm_num, by norm_num, by norm_num,
    diffusion_single_hot_cell 3 3 1 1 1 (by norm_num) (by norm_num) (by norm_num) (by norm_num)
      (by norm_num)⟩

/-- C6: repeatedly applying the per-frame decay multiplication to a
strictly positive heat value yields a strictly decreasing sequence that
never becomes negative and converges to 0. -/
theorem decay_monotone_to_zero (d h : ℚ) (hh : 0 < h) (hd0 : 0 < d) (hd1 : d < 1) :
    StrictAnti (decayIter d h) ∧ (∀ n, 0 < decayIter d h n) ∧
      ∀ ε : ℚ, 0 < ε → ∃ N : ℕ, ∀ n, N ≤ n → decayIter d h n < ε := by
  have hpos : ∀ n, 0 < decayIter d h n := by
    intro n
    rw [decayIter_eq]
    exact mul_pos hh (pow_pos hd0 n)
  refine ⟨?_, hpos, ?_⟩
  · apply strictAnti_nat_of_succ_lt
    intro n
    have hn := hpos n
    calc decayIter d h (n + 1) = decayIter d h n * d := rfl
      _ < decayIter d h n * 1 := by exact mul_lt_mul_of_pos_left hd1 hn
      _ = decayIter d h n := mul_one _
  · intro ε hε
    obtain ⟨N, hN⟩ := exists_pow_lt_of_lt_one (div_pos hε hh) hd1
    refine ⟨N, fun n hn => ?_⟩
    rw [decayIter_eq]
    have h1 : d ^ n ≤ d ^ N := pow_le_pow_of_le_one hd0.le hd1.le hn
    calc h * d ^ n ≤ h * d ^ N := mul_le_mul_of_nonneg_left h1 hh.le
      _ < h * (ε / h) := mul_lt_mul_of_pos_left hN hh
      _ = ε := by field_simp

/-- C6 witness at h = 1, d = 1/2. -/
theorem decay_monotone_to_zero_witness :
    0 < (1 : ℚ) ∧ 0 < (1/2 : ℚ) ∧ (1/2 : ℚ) < 1 ∧
    (StrictAnti (decayIter (1/2) 1) ∧ (∀ n, 0 < decayIter (1/2) 1 n) ∧
      ∀ ε : ℚ, 0 < ε → ∃ N : ℕ, ∀ n, N ≤ n → decayIter (1/2) 1 n < ε) :=
  ⟨by norm_num, by norm_num, by norm_num,
    decay_monotone_to_zero (1/2) 1 (by norm_num) (by norm_num) (by norm_num)⟩

/-- C7: writing one kernel entry with weight w at paint intensity p onto a
cell holding h leaves the cell holding max(h, p*w), and the whole paint
loop never decreases any cell. -/
theorem paint_max_blend (W H : ℕ) (p : ℚ) (gx gy : ℤ) (e : KEntry ℚ) (g : Grid W H)
    (x : Fin W) (y : Fin H) (hx : (x.val : ℤ) = gx + e.dx) (hy : (y.val : ℤ) = gy + e.dy) :
    paintEntry p gx gy e g x y = max (g x y) (p * e.w) ∧
      ∀ (kernel : List (KEntry ℚ)) (x2 : Fin W) (y2 : Fin H),
        g x2 y2 ≤ paintStep p gx gy kernel g x2 y2 := by
  constructor
  · unfold paintEntry
    rw [if_pos ⟨hx, hy⟩]
    rcases le_or_lt (p * e.w) (g x y) with hle | hlt
    · rw [if_neg (not_lt.mpr hle), max_eq_left hle]
    · rw [if_pos hlt, max_eq_right hlt.le]
  · intro kernel x2 y2
    exact paintStep_le p gx gy kernel g x2 y2

/-- C7 witness on a 1 × 1 grid with the centre entry of the kernel. -/
theorem paint_max_blend_witness :
    (((0 : Fin 1).val : ℤ) = 0 + 0 ∧ ((0 : Fin 1).val : ℤ) = 0 + 0) ∧
    (paintEntry 1 0 0 ⟨0, 0, (1/2)⟩ ((fun _ _ => (1/4 : ℚ)) : Grid 1 1) 0 0 =
        max (((fun _ _ => (1/4 : ℚ)) : Grid 1 1) 0 0) (1 * (1/2)) ∧
      ∀ (kernel : List (KEntry ℚ)) (x2 : Fin 1) (y2 : Fin 1),
        ((fun _ _ => (1/4 : ℚ)) : Grid 1 1) x2 y2 ≤
          paintStep 1 0 0 kernel ((fun _ _ => (1/4 : ℚ)) : Grid 1 1) x2 y2) :=
  ⟨⟨by norm_num, by norm_num⟩,
    paint_max_blend 1 1 1 0 0 ⟨0, 0, (1/2)⟩ ((fun _ _ => (1/4 : ℚ)) : Grid 1 1) 0 0
      (by norm_num) (by norm_num)⟩

/-- C8: a frame applies sample, diffuse, decay, paint, render in that
order — the paint intensity is sampled from the pre-frame buffer and the
max-blend paint runs on the already-decayed buffer before rendering; the
order is observable: on a 1 × 1 grid holding 1 with decay factor 1/2 and
an active centre brush, decay-then-paint leaves the brushed cell at 1
(fully replenished) while paint-then-decay would leave it at 1/2. -/
theorem tick_order_decay_before_paint :
    (∀ (W H : ℕ) (cyc : Bool) (inp : FrameInput W H) (g : Grid W H),
        tick cyc inp g =
          renderClamp cyc inp.useGlow inp.glow
            (if inp.active then
              paintStep (samplePaint cyc inp.kernel inp.gx inp.gy inp.accum g) inp.gx inp.gy
                inp.kernel (decayStep inp.decay (diffuseN inp.iters g))
            else decayStep inp.decay (diffuseN inp.iters g))) ∧
    tick false ⟨true, 0, 0, 1/2, 1/2, 0, [⟨0, 0, 1⟩], false, zeroGrid 1 1⟩
      ((fun _ _ => 1) : Grid 1 1) 0 0 = 1 ∧
    tickPaintBeforeDecay false ⟨true, 0, 0, 1/2, 1/2, 0, [⟨0, 0, 1⟩], false, zeroGrid 1 1⟩
      ((fun _ _ => 1) : Grid 1 1) 0 0 = 1/2 ∧
    tick false ⟨true, 0, 0, 1/2, 1/2, 0, [⟨0, 0, 1⟩], false, zeroGrid 1 1⟩
        ((fun _ _ => 1) : Grid 1 1) 0 0 ≠
      tickPaintBeforeDecay false ⟨true, 0, 0, 1/2, 1/2, 0, [⟨0, 0, 1⟩], false, zeroGrid 1 1⟩
        ((fun _ _ => 1) : Grid 1 1) 0 0 := by
  have h1 : tick false ⟨true, 0, 0, 1/2, 1/2, 0, [⟨0, 0, 1⟩], false, zeroGrid 1 1⟩
      ((fun _ _ => 1) : Grid 1 1) 0 0 = 1 := by
    norm_num [tick, samplePaint, coreCells, paintStep, paintEntry, decayStep, decayCell,
      diffuseN, renderClamp, renderThreshold, zeroGrid, List.filterMap, List.foldl]
  have h2 : tickPaintBeforeDecay false
      ⟨true, 0, 0, 1/2, 1/2, 0, [⟨0, 0, 1⟩], false, zeroGrid 1 1⟩
      ((fun _ _ => 1) : Grid 1 1) 0 0 = 1/2 := by
    norm_num [tickPaintBeforeDecay, samplePaint, coreCells, paintStep, paintEntry, decayStep,
      decayCell, diffuseN, renderClamp, renderThreshold, zeroGrid, List.filterMap, List.foldl]
  refine ⟨fun W H cyc inp g => rfl, h1, h2, ?_⟩
  rw [h1, h2]
  norm_num

/-- C9: after a resize, every cell of the overlapping rectangle of the old
and new dimensions keeps its pre-resize heat and glow-mask values, and
every cell outside the overlap is exactly zero. -/
theorem resize_overlap (oldW oldH newW newH : ℕ) (heat glow : Grid oldW oldH)
    (x : Fin newW) (y : Fin newH) :
    (∀ (hx : x.val < oldW) (hy : y.val < oldH),
        (onResize oldW oldH newW newH heat glow).1 x y = heat ⟨x.val, hx⟩ ⟨y.val, hy⟩ ∧
        (onResize oldW oldH newW newH heat glow).2 x y = glow ⟨x.val, hx⟩ ⟨y.val, hy⟩) ∧
    (¬(x.val < oldW ∧ y.val < oldH) →
        (onResize oldW oldH newW newH heat glow).1 x y = 0 ∧
        (onResize oldW oldH newW newH heat glow).2 x y = 0) := by
  constructor
  · intro hx hy
    constructor <;> simp [onResize, resizeGrid, dif_pos (And.intro hx hy)]
  · intro hne
    constructor <;> simp [onResize, resizeGrid, dif_neg hne]

/-- C9 witness: resize from 2 × 2 to 3 × 3; cell (1,1) is preserved and
cell (2,1) is outside the overlap. -/
theorem resize_overlap_witness :
    ((2 : Fin 3).val < 2 → False) ∧
    ((onResize 2 2 3 3 (fun _ _ => 5) (fun _ _ => 7)).1 1 1 = 5 ∧
      (onResize 2 2 3 3 (fun _ _ => 5) (fun _ _ => 7)).2 1 1 = 7 ∧
      (onResize 2 2 3 3 (fun _ _ => 5) (fun _ _ => 7)).1 2 1 = 0 ∧
      (onResize 2 2 3 3 (fun _ _ => 5) (fun _ _ => 7)).2 2 1 = 0) := by
  refine ⟨by norm_num, ?_, ?_, ?_, ?_⟩
  · exact ((resize_overlap 2 2 3 3 (fun _ _ => 5) (fun _ _ => 7) 1 1).1
      (by norm_num) (by norm_num)).1
  · exact ((resize_overlap 2 2 3 3 (fun _ _ => 5) (fun _ _ => 7) 1 1).1
      (by norm_num) (by norm_num)).2
  · exact ((resize_overlap 2 2 3 3 (fun _ _ => 5) (fun _ _ => 7) 2 1).2
      (by norm_num)).1
  · exact ((resize_overlap 2 2 3 3 (fun _ _ => 5) (fun _ _ => 7) 2 1).2
      (by norm_num)).2

/-- C10 counterexample: at the heat value v = 10^7 (far above both
visibility thresholds and representable in the Float32Array heat buffer)
the cycling render step computes (v * 255) | 0 = ToInt32(2550000000)
= -1744967296, which falls into the raw ≤ 40 branch, so the LUT index is
negative and the 256-entry LUT is read out of bounds. -/
theorem renderIndex_overflow_counterexample :
    renderIndex true 10000000 = -1744967296 ∧ renderIndex false 10000000 = -1744967296 ∧
      ¬(0 ≤ renderIndex true 10000000) := by
  have h : jsTrunc (10000000 * 255 : ℚ) = 2550000000 := by norm_num [jsTrunc]
  have h32 : toInt32 ((10000000 : ℚ) * 255) = -1744967296 := by
    rw [toInt32, h]; decide
  refine ⟨?_, ?_, ?_⟩
  · simp only [renderIndex, if_true]
    rw [h32]
    decide
  · simp only [renderIndex, Bool.false_eq_true, if_false]
    rw [h32]
    decide
  · simp only [renderIndex, if_true]
    rw [h32]
    decide

/-- C10 (amended): for every heat value v above the visibility threshold
with v * 255 < 2^31 (no 32-bit wrap in (v*255)|0), the LUT index lies in
[0, 255] for both palette kinds, and in the cycling branch past the
fade-in band it lies in [40, 255]; so the render step stays inside the
256-entry LUT.  The claim as stated fails for larger v, where ToInt32
wraps negative (see the counterexample). -/
theorem renderIndex_bounds (cyc : Bool) (v : ℚ) (hthr : renderThreshold cyc < v)
    (hbound : v * 255 < 2 ^ 31) :
    0 ≤ renderIndex cyc v ∧ renderIndex cyc v ≤ 255 ∧
      (cyc = true → 40 < toInt32 (v * 255) → 40 ≤ renderIndex cyc v) := by
  have hv : 0 < v := by
    rcases cyc with _ | _ <;> simp [renderThreshold] at hthr <;> linarith
  have hfl0 : 0 ≤ ⌊v * 255⌋ := Int.floor_nonneg.mpr (by positivity)
  have hfl1 : ⌊v * 255⌋ < 2 ^ 31 := Int.floor_lt.mpr (by exact_mod_cast hbound)
  have htr : jsTrunc (v * 255) = ⌊v * 255⌋ := by
    rw [jsTrunc, if_pos (by positivity)]
  have h32 : toInt32 (v * 255) = ⌊v * 255⌋ := by
    rw [toInt32, htr]
    omega
  rcases cyc with _ | _
  · simp only [renderIndex, Bool.false_eq_true, if_false, h32]
    refine ⟨?_, ?_, ?_⟩
    · omega
    · omega
    · intro hc; cases hc
  · simp only [renderIndex, if_true, h32]
    refine ⟨?_, ?_, ?_⟩ <;> [skip; skip; intro _ hgt] <;> split <;> omega

lemma jsRound_intCast (n : ℤ) : jsRound (n : ℚ) = n := by
  rw [jsRound, Int.floor_int_add]
  norm_num

lemma jsRound_mono {q1 q2 : ℚ} (h : q1 ≤ q2) : jsRound q1 ≤ jsRound q2 :=
  Int.floor_le_floor (by linarith)

lemma lerp_zero (x y : ℤ) : (x : ℚ) + ((y : ℚ) - x) * 0 = (x : ℚ) := by ring

lemma lerp_one (x y : ℤ) : (x : ℚ) + ((y : ℚ) - x) * 1 = (y : ℚ) := by ring

lemma interpStops_frac_zero (lo hi : ColorStop) (t : ℚ) (h : interpFrac lo hi t = 0) :
    interpStops lo hi t = ⟨lo.r, lo.g, lo.b⟩ := by
  rw [interpStops, h, lerp_zero, lerp_zero, lerp_zero,
    jsRound_intCast, jsRound_intCast, jsRound_intCast]

lemma interpStops_frac_one (lo hi : ColorStop) (t : ℚ) (h : interpFrac lo hi t = 1) :
    interpStops lo hi t = ⟨hi.r, hi.g, hi.b⟩ := by
  rw [interpStops, h, lerp_one, lerp_one, lerp_one,
    jsRound_intCast, jsRound_intCast, jsRound_intCast]

lemma buildColorLUT_getD (stops : List ColorStop) (cycling : Bool) (bg : RGB) (i : ℕ)
    (hi : i < 256) :
    (buildColorLUT stops cycling bg).getD i dfltRGB = lutEntry stops cycling bg i := by
  rw [buildColorLUT, List.getD_eq_getElem?_getD, List.getElem?_map, List.getElem?_range hi]
  rfl

lemma head_lt_lastStop :
    ∀ (l : List ColorStop) (a : ColorStop), l ≠ [] →
      List.Chain' (fun s t => s.pos < t.pos) (a :: l) → a.pos < (lastStop (a :: l)).pos := by
  intro l
  induction l with
  | nil => intro a hne _; exact absurd rfl hne
  | cons x rest ih =>
      intro a _ hchain
      have h1 : a.pos < x.pos := (List.chain'_cons.mp hchain).1
      have h2 := (List.chain'_cons.mp hchain).2
      cases rest with
      | nil => exact h1
      | cons y rest2 =>
          have h3 := ih x (by simp) h2
          exact lt_trans h1 h3

lemma findPair_at_one :
    ∀ (rest : List ColorStop) (a b : ColorStop),
      List.Chain' (fun s t => s.pos < t.pos) (a :: b :: rest) →
      (lastStop (a :: b :: rest)).pos = 1 →
      ∃ lo, findPair (a :: b :: rest) 1 = some (lo, lastStop (a :: b :: rest)) ∧ lo.pos < 1 := by
  intro rest
  induction rest with
  | nil =>
      intro a b hchain hlast
      have hab : a.pos < b.pos := (List.chain'_cons.mp hchain).1
      have hlast2 : lastStop [a, b] = b := rfl
      rw [hlast2] at hlast ⊢
      refine ⟨a, ?_, by rw [hlast] at hab; exact hab⟩
      rw [findPair, if_pos ⟨by rw [hlast] at hab; exact hab.le, by rw [hlast]⟩]
  | cons c rest2 ih =>
      intro a b hchain hlast
      have hcc := List.chain'_cons.mp hchain
      have hlast2 : lastStop (a :: b :: c :: rest2) = lastStop (b :: c :: rest2) := rfl
      rw [hlast2] at hlast ⊢
      have hb1 : b.pos < (lastStop (b :: c :: rest2)).pos :=
        head_lt_lastStop (c :: rest2) b (by simp) hcc.2
      have hblt : b.pos < 1 := by rw [hlast] at hb1; exact hb1
      obtain ⟨lo, hfp, hlo⟩ := ih b c hcc.2 hlast
      refine ⟨lo, ?_, hlo⟩
      rw [findPair, if_neg (fun hand => absurd hand.2 (not_le.mpr hblt))]
      exact hfp

/-- C2: for every well-formed stop list, the LUT builder returns exactly
256 entries, and for non-cycling palettes entry 0 exactly equals the
first stop colour and entry 255 the last stop colour; on the concrete
black-to-white two-stop list, entry 128 is (128,128,128) within ±1 per
channel and entries 0 / 255 are exactly black / white. -/
theorem buildColorLUT_shape (stops : List ColorStop) (bg : RGB) (hwf : WFStops stops) :
    (buildColorLUT stops false bg).length = 256 ∧
    (buildColorLUT stops false bg).getD 0 dfltRGB =
      ⟨(headStop stops).r, (headStop stops).g, (headStop stops).b⟩ ∧
    (buildColorLUT stops false bg).getD 255 dfltRGB =
      ⟨(lastStop stops).r, (lastStop stops).g, (lastStop stops).b⟩ ∧
    (buildColorLUT [⟨0, 0, 0, 0⟩, ⟨1, 255, 255, 255⟩] false ⟨0, 0, 0⟩).getD 0 dfltRGB =
      ⟨0, 0, 0⟩ ∧
    (buildColorLUT [⟨0, 0, 0, 0⟩, ⟨1, 255, 255, 255⟩] false ⟨0, 0, 0⟩).getD 255 dfltRGB =
      ⟨255, 255, 255⟩ ∧
    |((buildColorLUT [⟨0, 0, 0, 0⟩, ⟨1, 255, 255, 255⟩] false ⟨0, 0, 0⟩).getD 128 dfltRGB).r
        - 128| ≤ 1 ∧
    |((buildColorLUT [⟨0, 0, 0, 0⟩, ⟨1, 255, 255, 255⟩] false ⟨0, 0, 0⟩).getD 128 dfltRGB).g
        - 128| ≤ 1 ∧
    |((buildColorLUT [⟨0, 0, 0, 0⟩, ⟨1, 255, 255, 255⟩] false ⟨0, 0, 0⟩).getD 128 dfltRGB).b
        - 128| ≤ 1 := by
  obtain ⟨hne, hchain, hhead, hlast⟩ := hwf
  have hlen : (buildColorLUT stops false bg).length = 256 := by
    simp [buildColorLUT]
  have hbw128 : (buildColorLUT [⟨0, 0, 0, 0⟩, ⟨1, 255, 255, 255⟩] false ⟨0, 0, 0⟩).getD 128
      dfltRGB = ⟨128, 128, 128⟩ := by
    rw [buildColorLUT_getD _ _ _ 128 (by norm_num)]
    norm_num [lutEntry, fadeInCount, colorAt, findPair, interpStops, interpFrac, jsRound]
  have hbw0 : (buildColorLUT [⟨0, 0, 0, 0⟩, ⟨1, 255, 255, 255⟩] false ⟨0, 0, 0⟩).getD 0
      dfltRGB = ⟨0, 0, 0⟩ := by
    rw [buildColorLUT_getD _ _ _ 0 (by norm_num)]
    norm_num [lutEntry, fadeInCount, colorAt, findPair, interpStops, interpFrac, jsRound]
  have hbw255 : (buildColorLUT [⟨0, 0, 0, 0⟩, ⟨1, 255, 255, 255⟩] false ⟨0, 0, 0⟩).getD 255
      dfltRGB = ⟨255, 255, 255⟩ := by
    rw [buildColorLUT_getD _ _ _ 255 (by norm_num)]
    norm_num [lutEntry, fadeInCount, colorAt, findPair, interpStops, interpFrac, jsRound]
  refine ⟨hlen, ?_, ?_, hbw0, hbw255, by rw [hbw128]; norm_num, by rw [hbw128]; norm_num,
    by rw [hbw128]; norm_num⟩
  · -- entry 0 = first stop colour
    rw [buildColorLUT_getD _ _ _ 0 (by norm_num)]
    rw [lutEntry]
    rw [if_neg (by simp [fadeInCount])]
    have ht : (if false = true then (((0:ℕ) : ℚ) - fadeInCount false) / (255 - fadeInCount false)
        else ((0:ℕ) : ℚ) / 255) = 0 := by norm_num
    rw [ht]
    cases stops with
    | nil => exact absurd rfl hne
    | cons a rest =>
        cases rest with
        | nil =>
            exfalso
            have h1 : a.pos = 0 := hhead
            have h2 : a.pos = 1 := hlast
            rw [h1] at h2
            norm_num at h2
        | cons b rest2 =>
            have ha : a.pos = 0 := hhead
            have hb : 0 < b.pos := by
              have := (List.chain'_cons.mp hchain).1
              rw [ha] at this
              exact this
            have hfp : findPair (a :: b :: rest2) 0 = some (a, b) := by
              rw [findPair, if_pos ⟨le_of_eq ha, hb.le⟩]
            rw [colorAt, hfp]
            exact interpStops_frac_zero a b 0 (by
              rw [interpFrac, if_pos (by rw [ha]; linarith), ha]
              simp)
  · -- entry 255 = last stop colour
    rw [buildColorLUT_getD _ _ _ 255 (by norm_num)]
    rw [lutEntry]
    rw [if_neg (by simp [fadeInCount])]
    have ht : (if false = true then (((255:ℕ) : ℚ) - fadeInCount false) /
        (255 - fadeInCount false) else ((255:ℕ) : ℚ) / 255) = 1 := by norm_num
    rw [ht]
    cases stops with
    | nil => exact absurd rfl hne
    | cons a rest =>
        cases rest with
        | nil =>
            exfalso
            have h1 : a.pos = 0 := hhead
            have h2 : a.pos = 1 := hlast
            rw [h1] at h2
            norm_num at h2
        | cons b rest2 =>
            obtain ⟨lo, hfp, hlo⟩ := findPair_at_one rest2 a b hchain hlast
            rw [colorAt, hfp]
            exact interpStops_frac_one lo (lastStop (a :: b :: rest2)) 1 (by
              rw [interpFrac, if_pos (by rw [hlast]; linarith), hlast]
              exact div_self (by linarith))

/-- C2 witness on the concrete black-to-white two-stop list. -/
theorem buildColorLUT_shape_witness :
    WFStops [⟨0, 0, 0, 0⟩, ⟨1, 255, 255, 255⟩] ∧
    ((buildColorLUT [⟨0, 0, 0, 0⟩, ⟨1, 255, 255, 255⟩] false ⟨9, 9, 9⟩).length = 256 ∧
      (buildColorLUT [⟨0, 0, 0, 0⟩, ⟨1, 255, 255, 255⟩] false ⟨9, 9, 9⟩).getD 0 dfltRGB =
        ⟨(headStop [⟨0, 0, 0, 0⟩, ⟨1, 255, 255, 255⟩]).r,
         (headStop [⟨0, 0, 0, 0⟩, ⟨1, 255, 255, 255⟩]).g,
         (headStop [⟨0, 0, 0, 0⟩, ⟨1, 255, 255, 255⟩]).b⟩ ∧
      (buildColorLUT [⟨0, 0, 0, 0⟩, ⟨1, 255, 255, 255⟩] false ⟨9, 9, 9⟩).getD 255 dfltRGB =
        ⟨(lastStop [⟨0, 0, 0, 0⟩, ⟨1, 255, 255, 255⟩]).r,
         (lastStop [⟨0, 0, 0, 0⟩, ⟨1, 255, 255, 255⟩]).g,
         (lastStop [⟨0, 0, 0, 0⟩, ⟨1, 255, 255, 255⟩]).b⟩ ∧
      (buildColorLUT [⟨0, 0, 0, 0⟩, ⟨1, 255, 255, 255⟩] false ⟨0, 0, 0⟩).getD 0 dfltRGB =
        ⟨0, 0, 0⟩ ∧
      (buildColorLUT [⟨0, 0, 0, 0⟩, ⟨1, 255, 255, 255⟩] false ⟨0, 0, 0⟩).getD 255 dfltRGB =
        ⟨255, 255, 255⟩ ∧
      |((buildColorLUT [⟨0, 0, 0, 0⟩, ⟨1, 255, 255, 255⟩] false ⟨0, 0, 0⟩).getD 128
          dfltRGB).r - 128| ≤ 1 ∧
      |((buildColorLUT [⟨0, 0, 0, 0⟩, ⟨1, 255, 255, 255⟩] false ⟨0, 0, 0⟩).getD 128
          dfltRGB).g - 128| ≤ 1 ∧
      |((buildColorLUT [⟨0, 0, 0, 0⟩, ⟨1, 255, 255, 255⟩] false ⟨0, 0, 0⟩).getD 128
          dfltRGB).b - 128| ≤ 1) := by
  have hwf : WFStops [⟨0, 0, 0, 0⟩, ⟨1, 255, 255, 255⟩] := by
    refine ⟨by simp, ?_, by norm_num [headStop], by norm_num [lastStop]⟩
    norm_num [List.chain'_cons]
  exact ⟨hwf, buildColorLUT_shape [⟨0, 0, 0, 0⟩, ⟨1, 255, 255, 255⟩] ⟨9, 9, 9⟩ hwf⟩

lemma fade_channel_mono (c0 c1 : ℤ) {i j : ℕ} (hij : i ≤ j) :
    (c0 ≤ c1 → jsRound ((c0 : ℚ) + ((c1 : ℚ) - c0) * ((i : ℚ) / 40)) ≤
        jsRound ((c0 : ℚ) + ((c1 : ℚ) - c0) * ((j : ℚ) / 40))) ∧
    (c1 ≤ c0 → jsRound ((c0 : ℚ) + ((c1 : ℚ) - c0) * ((j : ℚ) / 40)) ≤
        jsRound ((c0 : ℚ) + ((c1 : ℚ) - c0) * ((i : ℚ) / 40))) := by
  have hij2 : (i : ℚ) / 40 ≤ (j : ℚ) / 40 := by
    have hc : (i : ℚ) ≤ (j : ℚ) := by exact_mod_cast hij
    linarith
  have hi0 : (0 : ℚ) ≤ (i : ℚ) / 40 := by positivity
  constructor <;> intro h <;> apply jsRound_mono
  · have hd : (0 : ℚ) ≤ (c1 : ℚ) - c0 := by
      rw [sub_nonneg]
      exact_mod_cast h
    nlinarith
  · have hd : (c1 : ℚ) - c0 ≤ 0 := by
      rw [sub_nonpos]
      exact_mod_cast h
    nlinarith

/-- C4: for a cycling palette the LUT builder reserves entries 0–39 as a
fade-in band: entry i blends the background colour toward the first stop
colour by the fraction i/40 (entry 0 is exactly the background), each
channel moves monotonically in the direction of the first stop colour,
and every entry i in [40, 255] is the stop-list interpolation at
t = (i - 40) / (255 - 40). -/
theorem cycling_fade_in_band (stops : List ColorStop) (bg : RGB) :
    (buildColorLUT stops true bg).getD 0 dfltRGB = bg ∧
    (∀ i : ℕ, i < 40 → (buildColorLUT stops true bg).getD i dfltRGB =
      ⟨jsRound ((bg.r : ℚ) + (((headStop stops).r : ℚ) - bg.r) * ((i : ℚ) / 40)),
       jsRound ((bg.g : ℚ) + (((headStop stops).g : ℚ) - bg.g) * ((i : ℚ) / 40)),
       jsRound ((bg.b : ℚ) + (((headStop stops).b : ℚ) - bg.b) * ((i : ℚ) / 40))⟩) ∧
    (∀ i j : ℕ, i ≤ j → j < 40 →
      (bg.r ≤ (headStop stops).r →
        ((buildColorLUT stops true bg).getD i dfltRGB).r ≤
          ((buildColorLUT stops true bg).getD j dfltRGB).r) ∧
      ((headStop stops).r ≤ bg.r →
        ((buildColorLUT stops true bg).getD j dfltRGB).r ≤
          ((buildColorLUT stops true bg).getD i dfltRGB).r) ∧
      (bg.g ≤ (headStop stops).g →
        ((buildColorLUT stops true bg).getD i dfltRGB).g ≤
          ((buildColorLUT stops true bg).getD j dfltRGB).g) ∧
      ((headStop stops).g ≤ bg.g →
        ((buildColorLUT stops true bg).getD j dfltRGB).g ≤
          ((buildColorLUT stops true bg).getD i dfltRGB).g) ∧
      (bg.b ≤ (headStop stops).b →
        ((buildColorLUT stops true bg).getD i dfltRGB).b ≤
          ((buildColorLUT stops true bg).getD j dfltRGB).b) ∧
      ((headStop stops).b ≤ bg.b →
        ((buildColorLUT stops true bg).getD j dfltRGB).b ≤
          ((buildColorLUT stops true bg).getD i dfltRGB).b)) ∧
    (∀ i : ℕ, 40 ≤ i → i < 256 →
      (buildColorLUT stops true bg).getD i dfltRGB =
        colorAt stops (((i : ℚ) - 40) / 215)) := by
  have hband : ∀ i : ℕ, i < 40 → (buildColorLUT stops true bg).getD i dfltRGB =
      ⟨jsRound ((bg.r : ℚ) + (((headStop stops).r : ℚ) - bg.r) * ((i : ℚ) / 40)),
       jsRound ((bg.g : ℚ) + (((headStop stops).g : ℚ) - bg.g) * ((i : ℚ) / 40)),
       jsRound ((bg.b : ℚ) + (((headStop stops).b : ℚ) - bg.b) * ((i : ℚ) / 40))⟩ := by
    intro i hi
    rw [buildColorLUT_getD _ _ _ i (by omega)]
    rw [lutEntry, if_pos (show i < fadeInCount true by simpa [fadeInCount] using hi)]
    norm_num [fadeInCount]
  refine ⟨?_, hband, ?_, ?_⟩
  · rw [hband 0 (by norm_num)]
    have hz : ((0 : ℕ) : ℚ) / 40 = 0 := by norm_num
    rw [hz, lerp_zero, lerp_zero, lerp_zero, jsRound_intCast, jsRound_intCast, jsRound_intCast]
  · intro i j hij hj40
    rw [hband i (by omega), hband j hj40]
    refine ⟨fun h => (fade_channel_mono _ _ hij).1 h, fun h => (fade_channel_mono _ _ hij).2 h,
      fun h => (fade_channel_mono _ _ hij).1 h, fun h => (fade_channel_mono _ _ hij).2 h,
      fun h => (fade_channel_mono _ _ hij).1 h, fun h => (fade_channel_mono _ _ hij).2 h⟩
  · intro i hi40 hi256
    rw [buildColorLUT_getD _ _ _ i hi256]
    rw [lutEntry, if_neg (by simp [fadeInCount]; omega)]
    have ht : (if true = true then ((i : ℚ) - fadeInCount true) / (255 - fadeInCount true)
        else (i : ℚ) / 255) = ((i : ℚ) - 40) / 215 := by norm_num [fadeInCount]
    rw [ht]

/-- C4 witness: a concrete two-stop cycling palette, sampled inside the
fade-in band (i = 10, i ≤ j = 20) and in the colour range (i = 100). -/
theorem cycling_fade_in_band_witness :
    (buildColorLUT [⟨0, 10, 20, 30⟩, ⟨1, 200, 100, 0⟩] true ⟨5, 50, 5⟩).getD 0 dfltRGB =
      ⟨5, 50, 5⟩ ∧
    (10 < 40 ∧ (buildColorLUT [⟨0, 10, 20, 30⟩, ⟨1, 200, 100, 0⟩] true ⟨5, 50, 5⟩).getD 10
      dfltRGB =
      ⟨jsRound ((5 : ℚ) + (((headStop [⟨0, 10, 20, 30⟩, ⟨1, 200, 100, 0⟩]).r : ℚ) - 5) *
          ((10 : ℕ) / 40)),
       jsRound ((50 : ℚ) + (((headStop [⟨0, 10, 20, 30⟩, ⟨1, 200, 100, 0⟩]).g : ℚ) - 50) *
          ((10 : ℕ) / 40)),
       jsRound ((5 : ℚ) + (((headStop [⟨0, 10, 20, 30⟩, ⟨1, 200, 100, 0⟩]).b : ℚ) - 5) *
          ((10 : ℕ) / 40))⟩) ∧
    ((5 : ℤ) ≤ 10 ∧
      ((buildColorLUT [⟨0, 10, 20, 30⟩, ⟨1, 200, 100, 0⟩] true ⟨5, 50, 5⟩).getD 10 dfltRGB).r ≤
        ((buildColorLUT [⟨0, 10, 20, 30⟩, ⟨1, 200, 100, 0⟩] true ⟨5, 50, 5⟩).getD 20
          dfltRGB).r) ∧
    (40 ≤ 100 ∧ 100 < 256 ∧
      (buildColorLUT [⟨0, 10, 20, 30⟩, ⟨1, 200, 100, 0⟩] true ⟨5, 50, 5⟩).getD 100 dfltRGB =
        colorAt [⟨0, 10, 20, 30⟩, ⟨1, 200, 100, 0⟩] (((100 : ℕ) - 40) / 215)) := by
  have h := cycling_fade_in_band [⟨0, 10, 20, 30⟩, ⟨1, 200, 100, 0⟩] ⟨5, 50, 5⟩
  refine ⟨h.1, ⟨by norm_num, ?_⟩, ⟨by norm_num, ?_⟩, by norm_num, by norm_num, ?_⟩
  · exact h.2.1 10 (by norm_num)
  · exact ((h.2.2.1 10 20 (by norm_num) (by norm_num)).1) (by norm_num [headStop])
  · exact h.2.2.2 100 (by norm_num) (by norm_num)

/-- C10 witness at cycling = true, v = 2. -/
theorem renderIndex_bounds_witness :
    renderThreshold true < 2 ∧ (2 : ℚ) * 255 < 2 ^ 31 ∧
    (0 ≤ renderIndex true 2 ∧ renderIndex true 2 ≤ 255 ∧
      (true = true → 40 < toInt32 ((2 : ℚ) * 255) → 40 ≤ renderIndex true 2)) :=
  ⟨by norm_num [renderThreshold], by norm_num,
    renderIndex_bounds true 2 (by norm_num [renderThreshold]) (by norm_num)⟩

lemma innerMinWeight_le_one (blr : ℝ) : innerMinWeight blr ≤ 1 := by
  unfold innerMinWeight
  have h : (0 : ℝ) ≤ max 0 ((blr - 30) / 30) := le_max_left 0 _
  nlinarith

lemma innerMinWeight_nonneg {blr : ℝ} (h : blr ≤ 80) : 0 ≤ innerMinWeight blr := by
  unfold innerMinWeight
  have h1 : max 0 ((blr - 30) / 30) ≤ 5/3 := max_le (by norm_num) (by linarith)
  linarith

lemma weightAt_bounds (bR blR im d : ℝ) (him0 : 0 ≤ im) (him1 : im ≤ 1)
    (hd0 : 0 ≤ d) (hdt : d ≤ bR + blR) :
    0 ≤ weightAt bR blR im d ∧ weightAt bR blR im d ≤ 1 := by
  rw [weightAt]
  split
  · next hdb =>
      by_cases hbr : 0 < bR
      · rw [if_pos hbr]
        have ht0 : 0 ≤ d / bR := div_nonneg hd0 hbr.le
        have ht1 : d / bR ≤ 1 := (div_le_one hbr).mpr hdb
        have htt0 : 0 ≤ d / bR * (d / bR) := mul_nonneg ht0 ht0
        have htt1 : d / bR * (d / bR) ≤ 1 := mul_le_one₀ ht1 ht0 ht1
        have him : (0:ℝ) ≤ 1 - im := by linarith
        have key1 := mul_le_mul_of_nonneg_left htt1 him
        have key2 := mul_nonneg him htt0
        constructor
        · nlinarith
        · nlinarith
      · rw [if_neg hbr]
        norm_num
  · next hdb =>
      have hdb2 : bR < d := not_le.mp hdb
      have hbl : 0 < blR := by linarith
      rw [if_pos hbl]
      have ht0 : 0 ≤ (d - bR) / blR := div_nonneg (by linarith) hbl.le
      have ht1 : (d - bR) / blR ≤ 1 := (div_le_one hbl).mpr (by linarith)
      have h1t : 0 ≤ 1 - (d - bR) / blR := by linarith
      have h1le : 1 - (d - bR) / blR ≤ 1 := by linarith
      have s1 : (1 - (d - bR) / blR) * (1 - (d - bR) / blR) ≤ 1 := mul_le_one₀ h1le h1t h1le
      have s1n : 0 ≤ (1 - (d - bR) / blR) * (1 - (d - bR) / blR) := mul_nonneg h1t h1t
      have s2 : (1 - (d - bR) / blR) * (1 - (d - bR) / blR) * (1 - (d - bR) / blR) ≤ 1 :=
        mul_le_one₀ s1 h1t h1le
      have s2n : 0 ≤ (1 - (d - bR) / blR) * (1 - (d - bR) / blR) * (1 - (d - bR) / blR) :=
        mul_nonneg s1n h1t
      exact ⟨mul_nonneg him0 s2n, mul_le_one₀ him1 s2n s2⟩

lemma weightAt_anti (bR blR im : ℝ) (him0 : 0 ≤ im) (him1 : im ≤ 1) {d1 d2 : ℝ}
    (hd10 : 0 ≤ d1) (h12 : d1 ≤ d2) (hd2t : d2 ≤ bR + blR) :
    weightAt bR blR im d2 ≤ weightAt bR blR im d1 := by
  rw [weightAt, weightAt]
  by_cases h2b : d2 ≤ bR
  · rw [if_pos h2b, if_pos (le_trans h12 h2b)]
    by_cases hbr : 0 < bR
    · rw [if_pos hbr, if_pos hbr]
      have ht12 : d1 / bR ≤ d2 / bR := div_le_div_of_nonneg_right h12 hbr.le
      have ht10 : 0 ≤ d1 / bR := div_nonneg hd10 hbr.le
      have hsq : d1 / bR * (d1 / bR) ≤ d2 / bR * (d2 / bR) := mul_self_le_mul_self ht10 ht12
      have him : (0:ℝ) ≤ 1 - im := by linarith
      have key := mul_le_mul_of_nonneg_left hsq him
      nlinarith
    · rw [if_neg hbr, if_neg hbr]
  · rw [if_neg h2b]
    have hd2b : bR < d2 := not_le.mp h2b
    have hbl : 0 < blR := by linarith
    rw [if_pos hbl]
    have ht20 : 0 ≤ (d2 - bR) / blR := div_nonneg (by linarith) hbl.le
    have ht21 : (d2 - bR) / blR ≤ 1 := (div_le_one hbl).mpr (by linarith)
    have h1t2 : 0 ≤ 1 - (d2 - bR) / blR := by linarith
    have h1le2 : 1 - (d2 - bR) / blR ≤ 1 := by linarith
    have s1 : (1 - (d2 - bR) / blR) * (1 - (d2 - bR) / blR) ≤ 1 := mul_le_one₀ h1le2 h1t2 h1le2
    have s1n : 0 ≤ (1 - (d2 - bR) / blR) * (1 - (d2 - bR) / blR) := mul_nonneg h1t2 h1t2
    have s2 : (1 - (d2 - bR) / blR) * (1 - (d2 - bR) / blR) * (1 - (d2 - bR) / blR) ≤ 1 :=
      mul_le_one₀ s1 h1t2 h1le2
    have s2n : 0 ≤ (1 - (d2 - bR) / blR) * (1 - (d2 - bR) / blR) * (1 - (d2 - bR) / blR) :=
      mul_nonneg s1n h1t2
    by_cases h1b : d1 ≤ bR
    · -- d1 inside the disc, d2 in the bleed zone
      rw [if_pos h1b]
      have hlhs : im * ((1 - (d2 - bR) / blR) * (1 - (d2 - bR) / blR) *
          (1 - (d2 - bR) / blR)) ≤ im * 1 := mul_le_mul_of_nonneg_left s2 him0
      by_cases hbr : 0 < bR
      · rw [if_pos hbr]
        have ht10 : 0 ≤ d1 / bR := div_nonneg hd10 hbr.le
        have ht11 : d1 / bR ≤ 1 := (div_le_one hbr).mpr h1b
        have htt1 : d1 / bR * (d1 / bR) ≤ 1 := mul_le_one₀ ht11 ht10 ht11
        have him : (0:ℝ) ≤ 1 - im := by linarith
        have key := mul_le_mul_of_nonneg_left htt1 him
        nlinarith
      · rw [if_neg hbr]
        nlinarith
    · -- both in the bleed zone
      rw [if_neg h1b]
      have hd1b : bR < d1 := not_le.mp h1b
      rw [if_pos hbl]
      have ht10 : 0 ≤ (d1 - bR) / blR := div_nonneg (by linarith) hbl.le
      have ht1le : (d1 - bR) / blR ≤ (d2 - bR) / blR :=
        div_le_div_of_nonneg_right (by linarith) hbl.le
      have h1t1 : 0 ≤ 1 - (d1 - bR) / blR := by linarith
      have hc2 : 1 - (d2 - bR) / blR ≤ 1 - (d1 - bR) / blR := by linarith
      have hsq : (1 - (d2 - bR) / blR) * (1 - (d2 - bR) / blR) ≤
          (1 - (d1 - bR) / blR) * (1 - (d1 - bR) / blR) := mul_self_le_mul_self h1t2 hc2
      have hcube : (1 - (d2 - bR) / blR) * (1 - (d2 - bR) / blR) * (1 - (d2 - bR) / blR) ≤
          (1 - (d1 - bR) / blR) * (1 - (d1 - bR) / blR) * (1 - (d1 - bR) / blR) :=
        mul_le_mul hsq hc2 h1t2 (mul_nonneg h1t1 h1t1)
      exact mul_le_mul_of_nonneg_left hcube him0

lemma buildBrushKernel_mem {brushRadius bleedRadius scale : ℝ} {e : KEntry ℝ}
    (he : e ∈ buildBrushKernel brushRadius bleedRadius scale) :
    e.w = kernelWeight brushRadius bleedRadius scale e.dx e.dy ∧
      kernelDist e.dx e.dy ≤ brushRadius / scale + bleedRadius / scale := by
  unfold buildBrushKernel at he
  obtain ⟨o, _, hcond⟩ := List.mem_filterMap.mp he
  by_cases hd : kernelDist o.1 o.2 ≤ brushRadius / scale + bleedRadius / scale
  · rw [if_pos hd] at hcond
    obtain rfl := Option.some_injective _ hcond
    exact ⟨rfl, hd⟩
  · rw [if_neg hd] at hcond
    exact absurd hcond (by simp)

/-- C3 counterexample: at (brushRadius, fadeRadius, scale) = (1, 90, 1)
the softness formula gives innerMinWeight = 1 - 2 * 0.6 = -1/5, and the
kernel entry at offset (1, 0) — distance 1, the edge of the brush disc —
carries the negative weight -1/5, so not every kernel weight lies in
[0, 1] (monotonicity in distance fails in the bleed zone as well). -/
theorem kernel_negative_weight_counterexample :
    (⟨1, 0, -(1/5)⟩ : KEntry ℝ) ∈ buildBrushKernel 1 90 1 ∧ (-(1/5) : ℝ) < 0 := by
  refine ⟨?_, by norm_num⟩
  unfold buildBrushKernel
  apply List.mem_filterMap.mpr
  have hdist : kernelDist 1 0 = 1 := by
    unfold kernelDist
    norm_num
  have hceil : (⌈(1:ℝ)/1 + 90/1⌉ : ℤ) = 91 := by norm_num
  refine ⟨(1, 0), ?_, ?_⟩
  · rw [hceil]
    unfold offsetRange
    apply List.mem_flatMap.mpr
    refine ⟨91, ?_, ?_⟩
    · apply List.mem_range.mpr
      decide
    · apply List.mem_map.mpr
      refine ⟨92, ?_, ?_⟩
      · apply List.mem_range.mpr
        decide
      · decide
  · rw [if_pos (by rw [hdist]; norm_num)]
    simp only [Option.some.injEq, KEntry.mk.injEq]
    refine ⟨trivial, trivial, ?_⟩
    unfold kernelWeight weightAt innerMinWeight
    rw [hdist]
    norm_num

/-- C3 (amended): for scale positive and fadeRadius at most 80 px (so
that innerMinWeight = 1 - max(0, (fadeRadius - 30)/30) * 0.6 is still
non-negative), every weight of the built kernel lies in [0, 1] and, for
any two kernel entries, the one at greater Euclidean distance from the
centre has a weight less than or equal to the other's.  The claim as
stated, over every input triple, fails for fadeRadius > 80 (see the
counterexample). -/
theorem kernel_weights_bounded_monotone (brushRadius bleedRadius scale : ℝ)
    (hscale : 0 < scale) (hbleed : bleedRadius ≤ 80) :
    (∀ e ∈ buildBrushKernel brushRadius bleedRadius scale, 0 ≤ e.w ∧ e.w ≤ 1) ∧
    (∀ e1 ∈ buildBrushKernel brushRadius bleedRadius scale,
      ∀ e2 ∈ buildBrushKernel brushRadius bleedRadius scale,
        kernelDist e1.dx e1.dy ≤ kernelDist e2.dx e2.dy → e2.w ≤ e1.w) := by
  constructor
  · intro e he
    obtain ⟨hw, hdist⟩ := buildBrushKernel_mem he
    rw [hw]
    exact weightAt_bounds _ _ _ _ (innerMinWeight_nonneg hbleed) (innerMinWeight_le_one _)
      (Real.sqrt_nonneg _) hdist
  · intro e1 h1 e2 h2 hle
    obtain ⟨hw1, _⟩ := buildBrushKernel_mem h1
    obtain ⟨hw2, hdist2⟩ := buildBrushKernel_mem h2
    rw [hw1, hw2]
    exact weightAt_anti _ _ _ (innerMinWeight_nonneg hbleed) (innerMinWeight_le_one _)
      (Real.sqrt_nonneg _) hle hdist2

/-- C3 witness at (brushRadius, fadeRadius, scale) = (40, 16, 2). -/
theorem kernel_weights_bounded_monotone_witness :
    (0 : ℝ) < 2 ∧ (16 : ℝ) ≤ 80 ∧
    ((∀ e ∈ buildBrushKernel 40 16 2, 0 ≤ e.w ∧ e.w ≤ 1) ∧
      (∀ e1 ∈ buildBrushKernel 40 16 2, ∀ e2 ∈ buildBrushKernel 40 16 2,
        kernelDist e1.dx e1.dy ≤ kernelDist e2.dx e2.dy → e2.w ≤ e1.w)) :=
  ⟨by norm_num, by norm_num,
    kernel_weights_bounded_monotone 40 16 2 (by norm_num) (by norm_num)⟩

end ThermalTouch
